import Mathlib

/-
Verification of the otpee HOTP/TOTP library (src/hotp.rs, src/totp.rs,
src/otp.rs, src/error.rs) against its specification.

Machine integers are modelled as Nat with explicit reduction modulo 2^w
where the Rust code can overflow (u32 arithmetic wraps, as in release
builds), and Rust panics (out-of-bounds slicing, remainder by zero,
division by zero) are modelled by an explicit `panicked` outcome.
The keyed hasher (SimpleHmac over a pluggable digest) is an external
capability; it is modelled as an arbitrary function from message bytes
to digest bytes, since Hotp::code feeds it exactly the 8 counter bytes
and finalize_fixed_reset makes each call independent.
-/

namespace Otpee

/-- OtpError from src/error.rs: the flat error enumeration. -/
inductive OtpError where
  | InvalidLength
  | HashTooShort
  | CounterOverflow
deriving DecidableEq

/-- Outcome of a Rust computation: Ok, Err(OtpError), or a panic
(out-of-bounds slice index, remainder/division by zero). -/
inductive RRes (α : Type) where
  | ok : α → RRes α
  | err : OtpError → RRes α
  | panicked : RRes α
deriving DecidableEq

/-- Is the outcome Ok? -/
def RRes.isOk {α : Type} : RRes α → Bool
  | .ok _ => true
  | _ => false

/-- Otp from src/otp.rs: a one-time password value with its digit width. -/
structure Otp where
  code : Nat
  length : Nat
deriving DecidableEq

/-- PartialEq<u32> for Otp (src/otp.rs): constant-time comparison of the
native byte representations, functionally equality of the u32 values. -/
def Otp.eqRaw (o : Otp) (x : Nat) : Bool := o.code == x

/-- u64::to_be_bytes: the 8 bytes of a u64, most-significant first
(src/hotp.rs `self.counter.to_be_bytes()`). -/
def u64beBytes (n : Nat) : List Nat :=
  [n / 2 ^ 56 % 256, n / 2 ^ 48 % 256, n / 2 ^ 40 % 256, n / 2 ^ 32 % 256,
   n / 2 ^ 24 % 256, n / 2 ^ 16 % 256, n / 2 ^ 8 % 256, n % 256]

/-- u32::from_be_bytes of a 4-byte list (src/hotp.rs). -/
def beU32 (bs : List Nat) : Nat :=
  match bs with
  | [a, b, c, d] => ((a * 256 + b) * 256 + c) * 256 + d
  | _ => 0

/-- 10_u32.pow(length as u32) from src/hotp.rs: the usize length is cast
to u32 (truncating mod 2^32) and the power is computed in u32 arithmetic,
wrapping modulo 2^32 on overflow. -/
def pow10u32 (w : Nat) : Nat := 10 ^ (w % 2 ^ 32) % 2 ^ 32

/-- Hotp from src/hotp.rs: the keyed hasher (modelled as the function
taking the hashed message bytes to the digest bytes), the u64 counter,
and the digit width (the `length` field). -/
structure Hotp where
  hasher : List Nat → List Nat
  counter : Nat
  length : Nat

/-- Hotp::set_counter (src/hotp.rs): unconditional overwrite. -/
def Hotp.set_counter (h : Hotp) (c : Nat) : Hotp := { h with counter := c }

/-- Hotp::increment_counter (src/hotp.rs): checked_add(1), failing with
CounterOverflow (without mutating) when the counter is u64::MAX. -/
def Hotp.increment_counter (h : Hotp) : RRes Nat × Hotp :=
  if h.counter + 1 < 2 ^ 64 then
    (.ok (h.counter + 1), { h with counter := h.counter + 1 })
  else
    (.err .CounterOverflow, h)

/-- Hotp::code (src/hotp.rs): hash the 8 big-endian counter bytes,
take offset = low 4 bits of the digest's last byte (`last()` is None,
hence HashTooShort, only for an empty digest), slice 4 bytes at offset
(an out-of-range slice is a Rust panic), read them as a big-endian u32,
mask with 0x7fffffff, and reduce modulo 10_u32.pow(length) (remainder
by zero is a Rust panic). The counter is not advanced. -/
def Hotp.code (h : Hotp) : RRes Otp :=
  if h.hasher (u64beBytes h.counter) = [] then .err .HashTooShort
  else if (h.hasher (u64beBytes h.counter)).getLastD 0 % 16 + 4
            ≤ (h.hasher (u64beBytes h.counter)).length then
    if pow10u32 h.length = 0 then .panicked
    else
      .ok ⟨beU32 (((h.hasher (u64beBytes h.counter)).drop
              ((h.hasher (u64beBytes h.counter)).getLastD 0 % 16)).take 4)
            % 2 ^ 31 % pow10u32 h.length, h.length⟩
  else .panicked

/-- Hotp::code_increment (src/hotp.rs): `let code = self.code()?;
self.increment_counter()?; Ok(code)`. -/
def Hotp.code_increment (h : Hotp) : RRes Otp × Hotp :=
  match h.code with
  | .ok c =>
    match h.increment_counter with
    | (.ok _, h') => (.ok c, h')
    | (.err e, h') => (.err e, h')
    | (.panicked, h') => (.panicked, h')
  | .err e => (.err e, h)
  | .panicked => (.panicked, h)

/-- Hotp::new (src/hotp.rs): the HMAC key schedule's acceptance of the
secret is external (`SimpleHmac::new_from_slice`), modelled by the
`keyOk` flag; on acceptance the counter starts at 0 and the length
defaults to 6, otherwise the error is mapped to InvalidLength. -/
def Hotp.new (keyOk : Bool) (hasher : List Nat → List Nat)
    (length : Option Nat) : RRes Hotp :=
  if keyOk = true then .ok ⟨hasher, 0, length.getD 6⟩
  else .err .InvalidLength

/-- Hotp::with_hasher (src/hotp.rs): wrap a caller-supplied hasher,
counter 0, length defaulting to 6. -/
def Hotp.with_hasher (hasher : List Nat → List Nat)
    (length : Option Nat) : Hotp :=
  ⟨hasher, 0, length.getD 6⟩

/-- State reached after n calls of Hotp::code_increment. -/
def Hotp.iterCI (h : Hotp) : Nat → Hotp
  | 0 => h
  | n + 1 => ((Hotp.iterCI h n).code_increment).snd

/-- Totp from src/totp.rs: a wrapped Hotp, the step interval (u64), the
skew window (usize), and the injected time callback returning the
current Unix time in seconds (u64). -/
structure Totp where
  hotp : Hotp
  interval : Nat
  skew : Nat
  time_callback : Unit → Nat

/-- Totp::counter (src/totp.rs): `(*self.time_callback)() / self.interval`;
division by an interval of zero is a Rust panic. -/
def Totp.counter (t : Totp) : RRes Nat :=
  if t.interval = 0 then .panicked
  else .ok (t.time_callback () / t.interval)

/-- Totp::code_at_time (src/totp.rs): set the wrapped Hotp's counter to
time / interval and compute its code (the counter overwrite persists). -/
def Totp.code_at_time (t : Totp) (time : Nat) : RRes Otp × Totp :=
  if t.interval = 0 then (.panicked, t)
  else
    ((t.hotp.set_counter (time / t.interval)).code,
     { t with hotp := t.hotp.set_counter (time / t.interval) })

/-- Totp::code (src/totp.rs): `let counter = self.counter();
self.code_at_time(counter)` — note that the already-divided counter is
passed where code_at_time expects a timestamp. -/
def Totp.code (t : Totp) : RRes Otp × Totp :=
  match t.counter with
  | .ok c => t.code_at_time c
  | .err e => (.err e, t)
  | .panicked => (.panicked, t)

/-- The loop of Totp::validate_code (src/totp.rs), iterating counter
values lo, lo+1, ... (n values in total): set the Hotp counter, compute
the code, treat Err as a non-match (`unwrap_or(false)`), return true on
the first match; a panic in code() propagates. -/
def validateFrom (hp : Hotp) (cand : Nat) (lo : Nat) : Nat → RRes Bool × Hotp
  | 0 => (.ok false, hp)
  | n + 1 =>
    match (hp.set_counter lo).code with
    | .panicked => (.panicked, hp.set_counter lo)
    | .ok o =>
      if o.eqRaw cand then (.ok true, hp.set_counter lo)
      else validateFrom (hp.set_counter lo) cand (lo + 1) n
    | .err _ => validateFrom (hp.set_counter lo) cand (lo + 1) n

/-- Totp::validate_code (src/totp.rs): c = time/interval, then loop over
`c.saturating_sub(skew) ..= c.saturating_add(skew)` (an inclusive range
of min(c+skew, u64::MAX) + 1 - (c - skew) values). -/
def Totp.validate_code (t : Totp) (cand : Nat) : RRes Bool × Totp :=
  if t.interval = 0 then (.panicked, t)
  else
    let c := t.time_callback () / t.interval
    let lo := c - t.skew
    let hi := min (c + t.skew) (2 ^ 64 - 1)
    let r := validateFrom t.hotp cand lo (hi + 1 - lo)
    (r.fst, { t with hotp := r.snd })

/-- There is a counter value v in the window at which the generator's
code matches the candidate under the constant-time comparison. -/
def matchAt (hp : Hotp) (cand v : Nat) : Prop :=
  ∃ o, (hp.set_counter v).code = .ok o ∧ o.eqRaw cand = true

/-- A panic-free sample hasher used to instantiate theorems: the digest
is the reversed message padded with 12 zero bytes, so the digest has 20
bytes and its last byte (hence the truncation offset) is 0. -/
def padHasher (m : List Nat) : List Nat := m.reverse ++ List.replicate 12 0

/-- For every counter, the sample 20-byte hasher makes Hotp::code return
Ok of the low 4 counter bytes read back most-significant-first. -/
theorem padHasher_code_ok (v : Nat) :
    Hotp.code ⟨padHasher, v, 6⟩ =
      .ok ⟨beU32 [v % 256, v / 2 ^ 8 % 256, v / 2 ^ 16 % 256, v / 2 ^ 24 % 256]
            % 2 ^ 31 % 10 ^ 6, 6⟩ := rfl

/-- Claim C1: the spec says Totp::code() is equivalent to
code_at_time(time_source()), i.e. that the counter used is
time_source() / interval_seconds. The code instead passes the
already-divided counter back into code_at_time, which divides by the
interval again: with interval 30 and time 59 the counter used by
code() is (59/30)/30 = 0 rather than 59/30 = 1, and the produced code
differs from code_at_time(59)'s. -/
theorem c1_code_divides_by_interval_twice :
    (Totp.code ⟨⟨padHasher, 0, 8⟩, 30, 1, fun _ => 59⟩).fst = .ok ⟨0, 8⟩ ∧
    ((Totp.code ⟨⟨padHasher, 0, 8⟩, 30, 1, fun _ => 59⟩).snd.hotp.counter = 0) ∧
    (Totp.code_at_time ⟨⟨padHasher, 0, 8⟩, 30, 1, fun _ => 59⟩ 59).fst
      = .ok ⟨16777216, 8⟩ ∧
    (59 : Nat) / 30 = 1 ∧
    (Totp.code ⟨⟨padHasher, 0, 8⟩, 30, 1, fun _ => 59⟩).fst ≠
      (Totp.code_at_time ⟨⟨padHasher, 0, 8⟩, 30, 1, fun _ => 59⟩ 59).fst := by
  refine ⟨rfl, rfl, rfl, rfl, ?_⟩
  decide

/-- Claim C3: the spec requires Hotp::code() to fail with HashTooShort
whenever the digest is shorter than offset + 4 (in particular whenever
it has fewer than 4 bytes). The code returns HashTooShort only for an
empty digest; for a 1-byte digest (offset 0, needs 4 bytes) and for a
4-byte digest whose last-byte low nibble is 1 (offset 1, needs 5 bytes)
the slice digest[offset..offset+4] is out of bounds and the code
panics instead of returning the error. -/
theorem c3_short_digest_panics_instead_of_err :
    Hotp.code ⟨fun _ => [0], 0, 6⟩ = .panicked ∧
    Hotp.code ⟨fun _ => [0], 0, 6⟩ ≠ .err .HashTooShort ∧
    Hotp.code ⟨fun _ => [0, 0, 0, 1], 0, 6⟩ = .panicked ∧
    Hotp.code ⟨fun _ => [0, 0, 0, 1], 0, 6⟩ ≠ .err .HashTooShort := by
  refine ⟨rfl, by decide, rfl, by decide⟩

/-- The increment at a saturated u64 counter: checked_add(1) fails and
the state is returned unchanged. -/
theorem increment_counter_at_max (h : Hotp) (hmax : h.counter = 2 ^ 64 - 1) :
    h.increment_counter = (.err .CounterOverflow, h) := by
  unfold Hotp.increment_counter
  rw [if_neg (by omega)]

/-- The increment below the saturated u64 counter: checked_add(1)
succeeds and only the counter field changes, to the old value plus 1. -/
theorem increment_counter_below_max (h : Hotp) (hlt : h.counter < 2 ^ 64 - 1) :
    h.increment_counter = (.ok (h.counter + 1), h.set_counter (h.counter + 1)) := by
  unfold Hotp.increment_counter
  rw [if_pos (by omega)]
  rfl

/-- Claim C6: increment_counter() at the maximum u64 counter fails with
CounterOverflow leaving the state (hence the counter) unchanged, and
for every counter below the maximum it succeeds, the counter afterwards
being the old value plus 1. -/
theorem c6_increment_counter (h : Hotp) :
    (h.counter = 2 ^ 64 - 1 →
      h.increment_counter = (.err .CounterOverflow, h)) ∧
    (h.counter < 2 ^ 64 - 1 →
      h.increment_counter = (.ok (h.counter + 1), h.set_counter (h.counter + 1))) :=
  ⟨increment_counter_at_max h, increment_counter_below_max h⟩

/-- Witness for C6: at counter u64::MAX the increment fails and at
counter 5 it returns 6. -/
theorem c6_increment_counter_witness :
    Hotp.increment_counter ⟨padHasher, 2 ^ 64 - 1, 6⟩
      = (.err .CounterOverflow, ⟨padHasher, 2 ^ 64 - 1, 6⟩) ∧
    Hotp.increment_counter ⟨padHasher, 5, 6⟩
      = (.ok 6, Hotp.set_counter ⟨padHasher, 5, 6⟩ 6) :=
  ⟨(c6_increment_counter ⟨padHasher, 2 ^ 64 - 1, 6⟩).1 rfl,
   (c6_increment_counter ⟨padHasher, 5, 6⟩).2 (by norm_num)⟩

/-- Claim C7: code_increment() computes the code for the current counter
and then attempts the increment; when the increment overflows it
returns the CounterOverflow error without the computed code, leaving
the counter unchanged, and otherwise it returns the code computed
before the increment (the counter advancing by 1). -/
theorem c7_code_increment (h : Hotp) (c : Otp) (hc : h.code = .ok c) :
    (h.counter = 2 ^ 64 - 1 →
      h.code_increment = (.err .CounterOverflow, h)) ∧
    (h.counter < 2 ^ 64 - 1 →
      h.code_increment = (.ok c, h.set_counter (h.counter + 1))) := by
  constructor
  · intro hmax
    unfold Hotp.code_increment
    rw [hc, increment_counter_at_max h hmax]
  · intro hlt
    unfold Hotp.code_increment
    rw [hc, increment_counter_below_max h hlt]

/-- Witness for C7: at counter u64::MAX the computed code is discarded
and CounterOverflow returned with the counter unchanged; at counter 0
the code for counter 0 is returned and the counter becomes 1. -/
theorem c7_code_increment_witness :
    Hotp.code_increment ⟨padHasher, 2 ^ 64 - 1, 6⟩
      = (.err .CounterOverflow, ⟨padHasher, 2 ^ 64 - 1, 6⟩) ∧
    Hotp.code_increment ⟨padHasher, 0, 6⟩
      = (.ok ⟨0, 6⟩, Hotp.set_counter ⟨padHasher, 0, 6⟩ 1) :=
  ⟨(c7_code_increment ⟨padHasher, 2 ^ 64 - 1, 6⟩ ⟨483647, 6⟩ (by decide)).1 rfl,
   (c7_code_increment ⟨padHasher, 0, 6⟩ ⟨0, 6⟩ (by decide)).2 (by norm_num)⟩

/-- Claim C9: both constructors (Hotp::new on key acceptance, and
Hotp::with_hasher) start the counter at 0, so the first code()
after construction is the code for counter 0. -/
theorem c9_constructors_start_at_zero (keyOk : Bool)
    (H : List Nat → List Nat) (L : Option Nat) (h : Hotp)
    (hnew : Hotp.new keyOk H L = .ok h) :
    h.counter = 0 ∧ h.code = Hotp.code ⟨H, 0, L.getD 6⟩ ∧
    (Hotp.with_hasher H L).counter = 0 ∧
    (Hotp.with_hasher H L).code = Hotp.code ⟨H, 0, L.getD 6⟩ := by
  unfold Hotp.new at hnew
  by_cases hk : keyOk = true
  · rw [if_pos hk] at hnew
    injection hnew with h1
    subst h1
    exact ⟨rfl, rfl, rfl, rfl⟩
  · rw [if_neg hk] at hnew
    exact RRes.noConfusion hnew

/-- Witness for C9: the generator built by Hotp::new with an accepted
key and the one built by with_hasher both have counter 0 and compute
the counter-0 code first. -/
theorem c9_constructors_start_at_zero_witness :
    (Hotp.mk padHasher 0 6).counter = 0 ∧
    (Hotp.mk padHasher 0 6).code = Hotp.code ⟨padHasher, 0, Option.getD none 6⟩ ∧
    (Hotp.with_hasher padHasher none).counter = 0 ∧
    (Hotp.with_hasher padHasher none).code
      = Hotp.code ⟨padHasher, 0, Option.getD none 6⟩ :=
  c9_constructors_start_at_zero true padHasher none ⟨padHasher, 0, 6⟩ rfl

/-- Counterexample to claim C2 as stated: at digit width 10 the modulus
10^10 overflows the u32 it is computed in (wrapping to 1410065408), so
with a digest whose truncated integer is 0x7ffffff0 the returned value
is not the claimed (big-endian u32 masked with 0x7FFFFFFF) mod 10^10. -/
theorem c2_cex_width_ten :
    Hotp.code ⟨fun _ => [255, 255, 255, 240], 0, 10⟩ ≠
      .ok ⟨beU32 [255, 255, 255, 240] % 2 ^ 31 % 10 ^ 10, 10⟩ := by
  decide

/-- Claim C2 (amended to digit widths at most 9, where 10^w fits in the
u32 computing it): Hotp::code() serializes the counter as 8 big-endian
bytes, hashes them, takes offset = low 4 bits of the digest's last
byte, reads 4 bytes at that offset as a big-endian u32, masks with
0x7FFFFFFF, reduces modulo 10^w, and returns a Code carrying that value
and width w. -/
theorem c2_code_formula (h : Hotp)
    (hne : h.hasher (u64beBytes h.counter) ≠ [])
    (hofs : (h.hasher (u64beBytes h.counter)).getLastD 0 % 16 + 4
              ≤ (h.hasher (u64beBytes h.counter)).length)
    (hw : h.length ≤ 9) :
    h.code = .ok ⟨beU32 (((h.hasher (u64beBytes h.counter)).drop
                    ((h.hasher (u64beBytes h.counter)).getLastD 0 % 16)).take 4)
                  % 2 ^ 31 % 10 ^ h.length, h.length⟩ := by
  have hlen : h.length % 2 ^ 32 = h.length :=
    Nat.mod_eq_of_lt (lt_of_le_of_lt hw (by norm_num))
  have hlt : 10 ^ h.length < 2 ^ 32 :=
    lt_of_le_of_lt (Nat.pow_le_pow_right (by norm_num) hw) (by norm_num)
  have hm : pow10u32 h.length = 10 ^ h.length := by
    unfold pow10u32
    rw [hlen, Nat.mod_eq_of_lt hlt]
  have hm0 : ¬ pow10u32 h.length = 0 := by
    rw [hm]
    positivity
  unfold Hotp.code
  rw [if_neg hne, if_pos hofs, if_neg hm0, hm]

/-- Witness for C2: with the identity hasher and counter 0x01020304 at
width 6, the pipeline yields 16909060 mod 10^6 = 909060. -/
theorem c2_code_formula_witness :
    Hotp.code ⟨fun m => m, 16909060, 6⟩ = .ok ⟨909060, 6⟩ :=
  (c2_code_formula ⟨fun m => m, 16909060, 6⟩ (by decide) (by decide)
    (by norm_num)).trans (by decide)

/-- Counterexample to claim C4 as stated: at digit width 32 the modulus
10^32 computed in u32 arithmetic wraps to 0 and code() panics on the
remainder by zero, so the computation is not well-defined for every
width and no in-range Code is produced. -/
theorem c4_cex_width_thirtytwo :
    Hotp.code ⟨fun _ => [0, 0, 0, 0], 0, 32⟩ = .panicked ∧
    pow10u32 32 = 0 := by
  exact ⟨rfl, rfl⟩

/-- Claim C4 (amended to digit widths at most 31, beyond which the
32-bit modulus wraps to 0 and code() panics): every Code produced by
Hotp::code() has numeric value in [0, 10^w); this includes the widths
10..31 whose modulus does not fit the 31-bit truncated integer range
(there the modulus is computed modulo 2^32, which only shrinks it, so
the value stays below 10^w). -/
theorem c4_code_in_range (h : Hotp) (o : Otp)
    (hw1 : 1 ≤ h.length) (hw2 : h.length ≤ 31)
    (hok : h.code = .ok o) :
    o.code < 10 ^ h.length := by
  have hlen : h.length % 2 ^ 32 = h.length :=
    Nat.mod_eq_of_lt (lt_of_le_of_lt hw2 (by norm_num))
  have hm0 : 0 < pow10u32 h.length := by
    unfold pow10u32
    rw [hlen]
    rcases Nat.lt_or_ge (10 ^ h.length) (2 ^ 32) with hsmall | hbig
    · rw [Nat.mod_eq_of_lt hsmall]
      positivity
    · have hdvd : ¬ 2 ^ 32 ∣ 10 ^ h.length := by
        intro hdiv
        have h2 : 2 ^ 32 ∣ 2 ^ h.length * 5 ^ h.length := by
          have : (10 : Nat) ^ h.length = 2 ^ h.length * 5 ^ h.length := by
            rw [← Nat.mul_pow]
          rwa [this] at hdiv
        have h5 : ¬ 2 ∣ 5 ^ h.length := by
          intro hc
          have := Nat.Prime.dvd_of_dvd_pow Nat.prime_two hc
          omega
        have h32 : (2 : Nat) ^ 32 ∣ 2 ^ h.length * 5 ^ h.length := h2
        have hco : Nat.Coprime (2 ^ 32) (5 ^ h.length) :=
          Nat.Coprime.pow _ _ (by norm_num)
        have h2h : (2 : Nat) ^ 32 ∣ 2 ^ h.length :=
          (Nat.Coprime.dvd_of_dvd_mul_right hco) h32
        have := (Nat.pow_dvd_pow_iff_le_right (by norm_num : 1 < 2)).mp h2h
        omega
      exact Nat.pos_of_ne_zero fun hz => hdvd (Nat.dvd_of_mod_eq_zero hz)
  have hmle : pow10u32 h.length ≤ 10 ^ h.length := by
    unfold pow10u32
    rw [hlen]
    exact Nat.mod_le _ _
  unfold Hotp.code at hok
  by_cases hne : h.hasher (u64beBytes h.counter) = []
  · rw [if_pos hne] at hok
    exact RRes.noConfusion hok
  · rw [if_neg hne] at hok
    by_cases hofs : (h.hasher (u64beBytes h.counter)).getLastD 0 % 16 + 4
        ≤ (h.hasher (u64beBytes h.counter)).length
    · rw [if_pos hofs, if_neg (by omega)] at hok
      injection hok with h1
      subst h1
      exact lt_of_lt_of_le (Nat.mod_lt _ hm0) hmle
    · rw [if_neg hofs] at hok
      exact RRes.noConfusion hok

/-- Witness for C4: the counter-0 code of the sample hasher at width 6
has value 0, which lies below 10^6. -/
theorem c4_code_in_range_witness : (Otp.mk 0 6).code < 10 ^ 6 :=
  c4_code_in_range ⟨padHasher, 0, 6⟩ ⟨0, 6⟩ (by norm_num) (by norm_num)
    (by decide)

/-- The increment when the u64 counter has no room left: checked_add(1)
fails and the state is returned unchanged. -/
theorem increment_counter_no_room (h : Hotp) (hge : ¬ h.counter + 1 < 2 ^ 64) :
    h.increment_counter = (.err .CounterOverflow, h) := by
  unfold Hotp.increment_counter
  rw [if_neg hge]

/-- A code_increment call whose result is Ok advanced exactly the
counter, by 1, staying within the u64 range. -/
theorem code_increment_of_isOk (h : Hotp)
    (hok : (h.code_increment.fst).isOk = true) :
    h.counter + 1 < 2 ^ 64 ∧ h.code_increment.snd = h.set_counter (h.counter + 1) := by
  unfold Hotp.code_increment at hok ⊢
  cases hc : h.code with
  | ok c =>
    rw [hc] at hok
    by_cases hlt : h.counter + 1 < 2 ^ 64
    · rw [increment_counter_below_max h (by omega)] at hok ⊢
      exact ⟨hlt, rfl⟩
    · rw [increment_counter_no_room h hlt] at hok
      simp [RRes.isOk] at hok
  | err e =>
    rw [hc] at hok
    simp [RRes.isOk] at hok
  | panicked =>
    rw [hc] at hok
    simp [RRes.isOk] at hok

/-- When every one of the first n code_increment calls on a fresh
generator returns Ok, the state after them is the fresh state with
counter n. -/
theorem iterCI_counter (H : List Nat → List Nat) (L : Nat) :
    ∀ n, (∀ i, i < n →
        (((Hotp.iterCI ⟨H, 0, L⟩ i).code_increment).fst).isOk = true) →
      Hotp.iterCI ⟨H, 0, L⟩ n = ⟨H, n, L⟩ := by
  intro n
  induction n with
  | zero =>
    intro _
    rfl
  | succ k ih =>
    intro hok
    have hk := ih (fun i hi => hok i (Nat.lt_succ_of_lt hi))
    have hkk := hok k (Nat.lt_succ_self k)
    show ((Hotp.iterCI ⟨H, 0, L⟩ k).code_increment).snd = _
    rw [hk] at hkk ⊢
    rw [(code_increment_of_isOk ⟨H, k, L⟩ hkk).2]
    rfl

/-- Claim C8: for every n reachable without counter overflow, the result
of the (n+1)-th of a sequence of code_increment() calls on a fresh
generator equals the result of set_counter(n) followed by code() on an
otherwise identical fresh generator. -/
theorem c8_code_increment_seq (H : List Nat → List Nat) (L : Nat) (n : Nat)
    (hn : n + 1 < 2 ^ 64)
    (hok : ∀ i, i < n →
      (((Hotp.iterCI ⟨H, 0, L⟩ i).code_increment).fst).isOk = true) :
    ((Hotp.iterCI ⟨H, 0, L⟩ n).code_increment).fst
      = ((Hotp.with_hasher H (some L)).set_counter n).code := by
  rw [iterCI_counter H L n hok]
  have hset : (Hotp.with_hasher H (some L)).set_counter n = (⟨H, n, L⟩ : Hotp) := rfl
  rw [hset]
  unfold Hotp.code_increment
  cases hc : Hotp.code ⟨H, n, L⟩ with
  | ok c =>
    rw [increment_counter_below_max ⟨H, n, L⟩ (by show n < 2 ^ 64 - 1; omega)]
  | err e => rfl
  | panicked => rfl

/-- Witness for C8: with the sample hasher at width 6, the third
code_increment call returns the same result as set_counter(2) followed
by code(). -/
theorem c8_code_increment_seq_witness :
    ((Hotp.iterCI ⟨padHasher, 0, 6⟩ 2).code_increment).fst
      = ((Hotp.with_hasher padHasher (some 6)).set_counter 2).code :=
  c8_code_increment_seq padHasher 6 2 (by norm_num) (by decide)

/-- Step equation of the validate loop when code() panics. -/
theorem validateFrom_step_panicked (hp : Hotp) (cand lo k : Nat)
    (hc : (hp.set_counter lo).code = .panicked) :
    validateFrom hp cand lo (k + 1) = (.panicked, hp.set_counter lo) := by
  conv_lhs => unfold validateFrom
  rw [hc]

/-- Step equation of the validate loop when code() returns a code. -/
theorem validateFrom_step_ok (hp : Hotp) (cand lo k : Nat) (o : Otp)
    (hc : (hp.set_counter lo).code = .ok o) :
    validateFrom hp cand lo (k + 1) =
      if o.eqRaw cand = true then (.ok true, hp.set_counter lo)
      else validateFrom (hp.set_counter lo) cand (lo + 1) k := by
  conv_lhs => unfold validateFrom
  rw [hc]

/-- Step equation of the validate loop when code() returns an error:
the error counts as a non-match and the loop continues. -/
theorem validateFrom_step_err (hp : Hotp) (cand lo k : Nat) (e : OtpError)
    (hc : (hp.set_counter lo).code = .err e) :
    validateFrom hp cand lo (k + 1) =
      validateFrom (hp.set_counter lo) cand (lo + 1) k := by
  conv_lhs => unfold validateFrom
  rw [hc]

/-- The validate loop returns (Ok true) exactly when one of the n
counter values starting at lo matches the candidate, provided code()
panics at none of them. -/
theorem validateFrom_true_iff (cand : Nat) :
    ∀ (n lo : Nat) (hp : Hotp),
      (∀ v, lo ≤ v → v < lo + n → (hp.set_counter v).code ≠ .panicked) →
      (((validateFrom hp cand lo n).fst = .ok true) ↔
        ∃ v, lo ≤ v ∧ v < lo + n ∧ matchAt hp cand v) := by
  intro n
  induction n with
  | zero =>
    intro lo hp _
    constructor
    · intro hfst
      exact absurd hfst (by simp [validateFrom])
    · rintro ⟨v, h1, h2, _⟩
      omega
  | succ k ih =>
    intro lo hp hnp
    cases hc : (hp.set_counter lo).code with
    | panicked => exact absurd hc (hnp lo (Nat.le_refl lo) (by omega))
    | ok o =>
      by_cases he : o.eqRaw cand = true
      · rw [validateFrom_step_ok hp cand lo k o hc, if_pos he]
        exact iff_of_true rfl ⟨lo, Nat.le_refl lo, by omega, o, hc, he⟩
      · rw [validateFrom_step_ok hp cand lo k o hc, if_neg he]
        have hnp' : ∀ v, lo + 1 ≤ v → v < lo + 1 + k →
            ((hp.set_counter lo).set_counter v).code ≠ .panicked :=
          fun v h1 h2 => hnp v (by omega) (by omega)
        rw [ih (lo + 1) (hp.set_counter lo) hnp']
        constructor
        · rintro ⟨v, h1, h2, hm⟩
          exact ⟨v, by omega, by omega, hm⟩
        · rintro ⟨v, h1, h2, hm⟩
          rcases Nat.eq_or_lt_of_le h1 with heq | hlt
          · exfalso
            obtain ⟨o', ho', he'⟩ := hm
            rw [← heq] at ho'
            rw [hc] at ho'
            injection ho' with ho2
            rw [← ho2] at he'
            exact he he'
          · exact ⟨v, by omega, by omega, hm⟩
    | err e =>
      have hnp' : ∀ v, lo + 1 ≤ v → v < lo + 1 + k →
          ((hp.set_counter lo).set_counter v).code ≠ .panicked :=
        fun v h1 h2 => hnp v (by omega) (by omega)
      rw [validateFrom_step_err hp cand lo k e hc]
      rw [ih (lo + 1) (hp.set_counter lo) hnp']
      constructor
      · rintro ⟨v, h1, h2, hm⟩
        exact ⟨v, by omega, by omega, hm⟩
      · rintro ⟨v, h1, h2, hm⟩
        rcases Nat.eq_or_lt_of_le h1 with heq | hlt
        · exfalso
          obtain ⟨o', ho', _⟩ := hm
          rw [← heq] at ho'
          rw [hc] at ho'
          exact RRes.noConfusion ho'
        · exact ⟨v, by omega, by omega, hm⟩

/-- Final state of the validate loop: when it returns (Ok false) the
counter was last set to the final window value, and when it returns
(Ok true) it was last set to the first matching window value. -/
theorem validateFrom_state (cand : Nat) :
    ∀ (n lo : Nat) (hp : Hotp),
      (∀ v, lo ≤ v → v < lo + n → (hp.set_counter v).code ≠ .panicked) →
      0 < n →
      (((validateFrom hp cand lo n).fst = .ok false →
          (validateFrom hp cand lo n).snd = hp.set_counter (lo + n - 1)) ∧
       ((validateFrom hp cand lo n).fst = .ok true →
          ∃ v, lo ≤ v ∧ v < lo + n ∧
            (validateFrom hp cand lo n).snd = hp.set_counter v ∧
            matchAt hp cand v ∧
            ∀ w, lo ≤ w → w < v → ¬ matchAt hp cand w)) := by
  intro n
  induction n with
  | zero =>
    intro lo hp _ hpos
    omega
  | succ k ih =>
    intro lo hp hnp _
    cases hc : (hp.set_counter lo).code with
    | panicked => exact absurd hc (hnp lo (Nat.le_refl lo) (by omega))
    | ok o =>
      by_cases he : o.eqRaw cand = true
      · rw [validateFrom_step_ok hp cand lo k o hc, if_pos he]
        constructor
        · intro hfalse
          exact absurd hfalse (by simp)
        · intro _
          exact ⟨lo, Nat.le_refl lo, by omega, rfl, ⟨o, hc, he⟩,
            fun w h1 h2 => absurd (Nat.lt_of_le_of_lt h1 h2) (Nat.lt_irrefl lo)⟩
      · rw [validateFrom_step_ok hp cand lo k o hc, if_neg he]
        have hnolo : ¬ matchAt hp cand lo := by
          rintro ⟨o', ho', he'⟩
          rw [hc] at ho'
          injection ho' with ho2
          rw [← ho2] at he'
          exact he he'
        cases k with
        | zero =>
          constructor
          · intro _
            show hp.set_counter lo = hp.set_counter (lo + 1 - 1)
            rw [Nat.add_sub_cancel]
          · intro htrue
            exact absurd htrue (by simp [validateFrom])
        | succ m =>
          have hnp' : ∀ v, lo + 1 ≤ v → v < lo + 1 + (m + 1) →
              ((hp.set_counter lo).set_counter v).code ≠ .panicked :=
            fun v h1 h2 => hnp v (by omega) (by omega)
          obtain ⟨ihf, iht⟩ :=
            ih (lo + 1) (hp.set_counter lo) hnp' (Nat.succ_pos m)
          constructor
          · intro hfalse
            have := ihf hfalse
            rw [this]
            show hp.set_counter (lo + 1 + (m + 1) - 1)
              = hp.set_counter (lo + (m + 1 + 1) - 1)
            congr 1
            omega
          · intro htrue
            obtain ⟨v, h1, h2, hsnd, hm, hmin⟩ := iht htrue
            refine ⟨v, by omega, by omega, hsnd, hm, ?_⟩
            intro w hw1 hw2
            rcases Nat.eq_or_lt_of_le hw1 with heq | hlt
            · rw [← heq]
              exact hnolo
            · exact hmin w (by omega) hw2
    | err e =>
      rw [validateFrom_step_err hp cand lo k e hc]
      have hnolo : ¬ matchAt hp cand lo := by
        rintro ⟨o', ho', _⟩
        rw [hc] at ho'
        exact RRes.noConfusion ho'
      cases k with
      | zero =>
        constructor
        · intro _
          show hp.set_counter lo = hp.set_counter (lo + 1 - 1)
          rw [Nat.add_sub_cancel]
        · intro htrue
          exact absurd htrue (by simp [validateFrom])
      | succ m =>
        have hnp' : ∀ v, lo + 1 ≤ v → v < lo + 1 + (m + 1) →
            ((hp.set_counter lo).set_counter v).code ≠ .panicked :=
          fun v h1 h2 => hnp v (by omega) (by omega)
        obtain ⟨ihf, iht⟩ :=
          ih (lo + 1) (hp.set_counter lo) hnp' (Nat.succ_pos m)
        constructor
        · intro hfalse
          have := ihf hfalse
          rw [this]
          show hp.set_counter (lo + 1 + (m + 1) - 1)
            = hp.set_counter (lo + (m + 1 + 1) - 1)
          congr 1
          omega
        · intro htrue
          obtain ⟨v, h1, h2, hsnd, hm, hmin⟩ := iht htrue
          refine ⟨v, by omega, by omega, hsnd, hm, ?_⟩
          intro w hw1 hw2
          rcases Nat.eq_or_lt_of_le hw1 with heq | hlt
          · rw [← heq]
            exact hnolo
          · exact hmin w (by omega) hw2

/-- validate_code's returned flag is the flag of the loop over the
saturated inclusive window, when the interval is nonzero. -/
theorem validate_code_fst (t : Totp) (cand : Nat) (hint : ¬ t.interval = 0) :
    (t.validate_code cand).fst
      = (validateFrom t.hotp cand (t.time_callback () / t.interval - t.skew)
          (min (t.time_callback () / t.interval + t.skew) (2 ^ 64 - 1) + 1
            - (t.time_callback () / t.interval - t.skew))).fst := by
  unfold Totp.validate_code
  rw [if_neg hint]

/-- validate_code's returned Hotp state is the loop's final state, when
the interval is nonzero. -/
theorem validate_code_snd (t : Totp) (cand : Nat) (hint : ¬ t.interval = 0) :
    (t.validate_code cand).snd.hotp
      = (validateFrom t.hotp cand (t.time_callback () / t.interval - t.skew)
          (min (t.time_callback () / t.interval + t.skew) (2 ^ 64 - 1) + 1
            - (t.time_callback () / t.interval - t.skew))).snd := by
  unfold Totp.validate_code
  rw [if_neg hint]

/-- The sample hasher's code() never panics, whatever the counter. -/
theorem padHasher_no_panic (v : Nat) (_h : v < 2 ^ 64) :
    ((Hotp.mk padHasher 0 6).set_counter v).code ≠ .panicked := by
  rw [show (Hotp.mk padHasher 0 6).set_counter v = ⟨padHasher, v, 6⟩ from rfl,
    padHasher_code_ok v]
  simp

/-- Claim C5: validate_code(candidate) returns true if and only if some
counter value in the inclusive window [c - skew, c + skew] (clamped at
0 below, and within the u64 range) around the current time step
c = time_source() / interval yields a code equal to the candidate; it
is true on the first match and false once the window is exhausted.
Stated for a nonzero interval and a hasher whose code() never panics
(as any real digest of at least 20 bytes guarantees). -/
theorem c5_validate_code_iff (t : Totp) (cand : Nat)
    (hint : 0 < t.interval) (ht : t.time_callback () < 2 ^ 64)
    (hnp : ∀ v, v < 2 ^ 64 → (t.hotp.set_counter v).code ≠ .panicked) :
    (((t.validate_code cand).fst = .ok true) ↔
      ∃ v, t.time_callback () / t.interval - t.skew ≤ v ∧
        v ≤ t.time_callback () / t.interval + t.skew ∧ v < 2 ^ 64 ∧
        matchAt t.hotp cand v) := by
  have hcb : t.time_callback () / t.interval < 2 ^ 64 :=
    lt_of_le_of_lt (Nat.div_le_self _ _) ht
  rw [validate_code_fst t cand (by omega)]
  have hiff := validateFrom_true_iff cand
    (min (t.time_callback () / t.interval + t.skew) (2 ^ 64 - 1) + 1
      - (t.time_callback () / t.interval - t.skew))
    (t.time_callback () / t.interval - t.skew) t.hotp
    (fun v h1 h2 => hnp v (by omega))
  rw [hiff]
  constructor
  · rintro ⟨v, h1, h2, hm⟩
    exact ⟨v, by omega, by omega, by omega, hm⟩
  · rintro ⟨v, h1, h2, h3, hm⟩
    exact ⟨v, by omega, by omega, hm⟩

/-- Witness for C5: with the sample hasher, interval 30, skew 1 and
time 59, the code of the adjacent step 1 (value 777216) validates. -/
theorem c5_validate_code_iff_witness :
    (Totp.validate_code ⟨⟨padHasher, 0, 6⟩, 30, 1, fun _ => 59⟩ 777216).fst
      = .ok true :=
  (c5_validate_code_iff ⟨⟨padHasher, 0, 6⟩, 30, 1, fun _ => 59⟩ 777216
      (by norm_num) (by norm_num) padHasher_no_panic).mpr
    ⟨1, by norm_num, by norm_num, by norm_num, ⟨777216, 6⟩, by decide, by decide⟩

/-- Claim C10: validate_code overwrites the wrapped Hotp's counter and
does not restore it: afterwards the counter is the first matching
window value on success, and the last window value c + skew when no
match was found. Stated for a nonzero interval, a u64 time, a window
whose top end does not saturate, and a panic-free hasher. -/
theorem c10_validate_code_mutates_counter (t : Totp) (cand : Nat)
    (hint : 0 < t.interval) (ht : t.time_callback () < 2 ^ 64)
    (hs : t.time_callback () / t.interval + t.skew < 2 ^ 64)
    (hnp : ∀ v, v < 2 ^ 64 → (t.hotp.set_counter v).code ≠ .panicked) :
    (((t.validate_code cand).fst = .ok false →
        (t.validate_code cand).snd.hotp
          = t.hotp.set_counter (t.time_callback () / t.interval + t.skew)) ∧
     ((t.validate_code cand).fst = .ok true →
        ∃ v, t.time_callback () / t.interval - t.skew ≤ v ∧
          v ≤ t.time_callback () / t.interval + t.skew ∧
          (t.validate_code cand).snd.hotp = t.hotp.set_counter v ∧
          matchAt t.hotp cand v ∧
          ∀ w, t.time_callback () / t.interval - t.skew ≤ w → w < v →
            ¬ matchAt t.hotp cand w)) := by
  have hcb : t.time_callback () / t.interval < 2 ^ 64 :=
    lt_of_le_of_lt (Nat.div_le_self _ _) ht
  rw [validate_code_fst t cand (by omega), validate_code_snd t cand (by omega)]
  generalize hd : t.time_callback () / t.interval = d at hcb hs ⊢
  obtain ⟨hf, htr⟩ := validateFrom_state cand
    (min (d + t.skew) (2 ^ 64 - 1) + 1 - (d - t.skew))
    (d - t.skew) t.hotp
    (fun v h1 h2 => hnp v (by omega)) (by omega)
  constructor
  · intro hfalse
    rw [hf hfalse]
    congr 1
    omega
  · intro htrue
    obtain ⟨v, h1, h2, hsnd, hm, hmin⟩ := htr htrue
    exact ⟨v, by omega, by omega, hsnd, hm, fun w hw1 hw2 => hmin w (by omega) hw2⟩

/-- Witness for C10: with the sample hasher, interval 30, skew 1 and
time 59, validating a candidate no step can produce (10^6, out of the
6-digit range) fails and leaves the counter at c + skew = 2. -/
theorem c10_validate_code_mutates_counter_witness :
    (Totp.validate_code ⟨⟨padHasher, 0, 6⟩, 30, 1, fun _ => 59⟩ 1000000).snd.hotp
      = Hotp.set_counter ⟨padHasher, 0, 6⟩ 2 :=
  (c10_validate_code_mutates_counter ⟨⟨padHasher, 0, 6⟩, 30, 1, fun _ => 59⟩
      1000000 (by norm_num) (by norm_num) (by norm_num) padHasher_no_panic).1
    (by decide)

end Otpee
